import Mathlib

/-!
Shallow embedding of the record reconciliation and batch-upsert engine of
the Kaimono scraping repository (`kaimono/pipelines.py`, `kaimono/items.py`),
together with theorems settling the specification claims about it.

Values flowing through the pipeline are modelled by an arbitrary type `α`
with decidable equality (the source is dynamically typed; primary keys
returned by foreign-key lookups live in the same value universe as raw
values).  The database connection is modelled by an oracle `DB α` giving
the outcome of the two read-only queries the pipeline issues; a database
exception is an `Except.error`.
-/

namespace Kaimono

/-- Decidable equality of `Except` values, used to evaluate the embedding
at concrete inputs. -/
instance {ε σ : Type} [DecidableEq ε] [DecidableEq σ] : DecidableEq (Except ε σ) := fun a b =>
  match a, b with
  | .error x, .error y =>
    if h : x = y then .isTrue (by rw [h]) else .isFalse (by intro hc; cases hc; exact h rfl)
  | .ok x, .ok y =>
    if h : x = y then .isTrue (by rw [h]) else .isFalse (by intro hc; cases hc; exact h rfl)
  | .error _, .ok _ => .isFalse (by intro hc; cases hc)
  | .ok _, .error _ => .isFalse (by intro hc; cases hc)

/-- Errors the pipeline can raise: a re-raised database error
(`match_ids` re-raises after rollback), the `assert` in `match_ids`
(AssertionError), and the list indexing `collected_data[index]` in
`distribute_data` (IndexError). -/
inductive Err where
  | dbError (msg : String)
  | assertionError
  | indexError
deriving DecidableEq, Repr

/-- Oracle for the two read-only queries:
`selectCond table match_field values` is the outcome of
`SELECT id, {match_field} FROM {table} WHERE {match_field} IN values`
(a list of `(primary key, matched value)` rows), and
`existsQ table matches` is the outcome of
`SELECT EXISTS (SELECT 1 FROM {table} WHERE field = value AND ...)`. -/
structure DB (α : Type) where
  selectCond : String → String → List α → Except String (List (α × α))
  existsQ : String → List (String × α) → Except String Bool

/-- `kaimono/items.py` `Substitution`: the referenced field, and the
referenced table (`None` meaning the item's own table). -/
structure Substitution where
  field : String
  table : Option String
deriving DecidableEq, Repr

/-- `kaimono/items.py` `PSQLItemMeta` class attributes. -/
structure PSQLItemMeta where
  db_table : String
  fields : List String
  match_fields : List String
  substitutions : List (String × Substitution)
  do_update : Bool
deriving DecidableEq, Repr

/-- `PSQLItemMeta.__init__`: `assert self.db_table and self.fields`.
An empty table name or an empty field list is falsy and fails the
assertion; nothing else is validated. -/
def PSQLItemMeta.init (m : PSQLItemMeta) : Except Err PSQLItemMeta :=
  if m.db_table = "" ∨ m.fields = [] then .error .assertionError else .ok m

/-- `kaimono/pipelines.py` `DistributedData` dataclass. -/
structure DistributedData (α : Type) where
  fields : List String
  to_update : List (List α)
  to_create : List (List α)
deriving DecidableEq, Repr

/-- Python `substitution.table or db_meta.db_table`: `None` and the empty
string are falsy, so both fall back to the item's own table. -/
def pyOrTable : Option String → String → String
  | some t, d => if t = "" then d else t
  | none, d => d

/-- `PSQLPipeline.match_ids`: issue the lookup query; an empty result
yields `[]`; otherwise collect, for each input value in order, the ids of
all result rows whose matched value equals it, and assert that exactly as
many ids as input values were produced. -/
def match_ids [DecidableEq α] (db : DB α) (table_name : String)
    (match_field : String) (values : List α) : Except Err (List α) :=
  match db.selectCond table_name match_field values with
  | .error e => .error (.dbError e)
  | .ok result =>
    if result = [] then .ok []
    else
      let ids := values.flatMap fun v =>
        result.filterMap fun p => if v = p.2 then some p.1 else none
      if ids.length = values.length then .ok ids else .error .assertionError

/-- `PSQLPipeline.check_exists`: any database exception is caught, logged
and swallowed — the method then returns `None` (modelled as `none`), which
the caller treats as falsy. -/
def check_exists (db : DB α) (table_name : String)
    (conds : List (String × α)) : Option Bool :=
  match db.existsQ table_name conds with
  | .ok b => some b
  | .error _ => none

/-- First phase of `PSQLPipeline.distribute_data` (the `for field in
db_meta.fields` loop): collect, in declared field order, the pairs
`(field, column)` of present columns, with foreign-key substitution
applied and empty substitution results dropping the whole column. -/
def collectColumns [DecidableEq α] (db : DB α) (m : PSQLItemMeta)
    (item : String → Option (List α)) : List String → Except Err (List (String × List α))
  | [] => .ok []
  | f :: rest =>
    match item f with
    | none => collectColumns db m item rest
    | some values =>
      match m.substitutions.lookup f with
      | none => (collectColumns db m item rest).map (fun cs => (f, values) :: cs)
      | some sub =>
        match match_ids db (pyOrTable sub.table m.db_table) sub.field values with
        | .error e => .error e
        | .ok ids =>
          if ids = [] then collectColumns db m item rest
          else (collectColumns db m item rest).map (fun cs => (f, ids) :: cs)

/-- Row-building core of Python `zip(*cols)` for a non-empty list of
columns: recursion on the first column, stopping as soon as any column is
exhausted. -/
def heads? : List (List α) → Option (List α × List (List α))
  | [] => some ([], [])
  | [] :: _ => none
  | (x :: xs) :: cs =>
    match heads? cs with
    | none => none
    | some (hs, ts) => some (x :: hs, xs :: ts)

def transposeAux : List α → List (List α) → List (List α)
  | [], _ => []
  | x :: xs, rest =>
    match heads? rest with
    | none => []
    | some (hs, ts) => (x :: hs) :: transposeAux xs ts

/-- Python `list(zip(*cols))`: transpose a list of columns into rows,
silently truncating to the shortest column; `zip()` of no columns is
empty. -/
def pyZip : List (List α) → List (List α)
  | [] => []
  | c :: cs => transposeAux c cs

/-- Second phase of `PSQLPipeline.distribute_data`: the
`for index, matches in enumerate(tuple(zip(*checks_to_exists.values())))`
loop.  `rows` is the full transposition `collected_data`, the traversed
list is the enumerated transposition of the match columns.  A match-key
tuple already in `processed` is skipped; otherwise the row at the running
index is fetched (IndexError when out of range), its existence is checked,
and it is appended to `to_update` (when updating is allowed), dropped, or
appended to `to_create`. -/
def distributeLoop [DecidableEq α] (db : DB α) (table : String) (doUpdate : Bool)
    (keys : List String) (rows : List (List α)) (processed : List (List α))
    (tc tu : List (List α)) :
    List (Nat × List α) → Except Err (List (List α) × List (List α))
  | [] => .ok (tc, tu)
  | (i, k) :: ms =>
    if k ∈ processed then
      distributeLoop db table doUpdate keys rows processed tc tu ms
    else
      match rows[i]? with
      | none => .error .indexError
      | some data =>
        if check_exists db table (keys.zip k) = some true then
          if doUpdate = false then
            distributeLoop db table doUpdate keys rows (k :: processed) tc tu ms
          else
            distributeLoop db table doUpdate keys rows (k :: processed) tc (tu ++ [data]) ms
        else
          distributeLoop db table doUpdate keys rows (k :: processed) (tc ++ [data]) tu ms

/-- `PSQLPipeline.distribute_data`: collect the columns, transpose, and
either route everything to `to_create` (no match fields) or classify each
first-seen match-key tuple by an existence check. -/
def distribute_data [DecidableEq α] (db : DB α) (m : PSQLItemMeta)
    (item : String → Option (List α)) : Except Err (DistributedData α) :=
  match collectColumns db m item m.fields with
  | .error e => .error e
  | .ok cols =>
    let flds := cols.map Prod.fst
    let collected := pyZip (cols.map Prod.snd)
    if m.match_fields = [] then
      .ok ⟨flds, [], collected⟩
    else
      let checks := cols.filter fun p => p.1 ∈ m.match_fields
      match distributeLoop db m.db_table m.do_update (checks.map Prod.fst) collected
          [] [] [] (pyZip (checks.map Prod.snd)).enum with
      | .error e => .error e
      | .ok (tc, tu) => .ok ⟨flds, tu, tc⟩

/-- A bulk write issued by `PSQLPipeline.process_item`. -/
inductive WriteOp (α : Type) where
  | create (table : String) (fields : List String) (values : List (List α))
  | update (table : String) (fields : List String) (match_fields : List String)
      (values : List (List α))
deriving DecidableEq, Repr

/-- `PSQLPipeline.process_item` for an item carrying a `PSQLItemMeta`:
distribute the data, then issue a bulk create when `to_create` is
non-empty and a bulk update when `to_update` is non-empty.  The model
returns the list of writes issued. -/
def process_item [DecidableEq α] (db : DB α) (m : PSQLItemMeta)
    (item : String → Option (List α)) : Except Err (List (WriteOp α)) :=
  match distribute_data db m item with
  | .error e => .error e
  | .ok dd =>
    .ok ((if dd.to_create ≠ [] then
            [WriteOp.create m.db_table dd.fields dd.to_create] else []) ++
         (if dd.to_update ≠ [] then
            [WriteOp.update m.db_table dd.fields m.match_fields dd.to_update] else []))

/-- The `INSERT INTO {table_name} ({fields}) VALUES %s` statement built by
`PSQLPipeline.create`. -/
def sqlInsert (table_name : String) (fields : List String) : String :=
  "INSERT INTO " ++ table_name ++ " (" ++ String.intercalate ", " fields ++ ") VALUES %s"

/-- The `UPDATE ... FROM (VALUES %s) as tmp (...) WHERE ...` statement
built by `PSQLPipeline.update`. -/
def sqlUpdate (table_name : String) (fields match_fields : List String) : String :=
  "UPDATE " ++ table_name ++ " SET " ++
    String.intercalate ", " (fields.map fun f => f ++ " = tmp." ++ f) ++
    " FROM (VALUES %s) as tmp (" ++ String.intercalate ", " fields ++ ") WHERE " ++
    String.intercalate " AND "
      (match_fields.map fun mf => table_name ++ "." ++ mf ++ " = tmp." ++ mf)

/-- Transactional connection state: the last committed store state and the
uncommitted working state of the open transaction. -/
structure TxState (σ : Type) where
  committed : σ
  pending : σ
deriving DecidableEq, Repr

/-- `PSQLPipeline.create`: run `execute_values` with the bulk INSERT; on
any exception roll back (pending reset to committed) and re-raise, else
commit. `execV sql values state` is the store's outcome for one
`execute_values` call on the working state. -/
def create (execV : String → List (List α) → σ → Except String σ)
    (table_name : String) (fields : List String) (values : List (List α))
    (s : TxState σ) : Except String Unit × TxState σ :=
  match execV (sqlInsert table_name fields) values s.pending with
  | .error e => (.error e, ⟨s.committed, s.committed⟩)
  | .ok p => (.ok (), ⟨p, p⟩)

/-- `PSQLPipeline.update`: run `execute_values` with the bulk
UPDATE-from-VALUES; on any exception roll back and re-raise, else
commit. -/
def update (execV : String → List (List α) → σ → Except String σ)
    (table_name : String) (fields match_fields : List String)
    (values : List (List α)) (s : TxState σ) : Except String Unit × TxState σ :=
  match execV (sqlUpdate table_name fields match_fields) values s.pending with
  | .error e => (.error e, ⟨s.committed, s.committed⟩)
  | .ok p => (.ok (), ⟨p, p⟩)

/-- Specification-side first-occurrence filter: keep an enumerated
match-key tuple only the first time its key is seen (keys already in
`processed` count as seen). -/
def dedupByKey [DecidableEq α] (processed : List (List α)) :
    List (Nat × List α) → List (Nat × List α)
  | [] => []
  | (i, k) :: ps =>
    if k ∈ processed then dedupByKey processed ps
    else (i, k) :: dedupByKey (k :: processed) ps

/-- Specification-side classification of an already deduplicated list of
enumerated match-key tuples: fetch each row by its index, check existence,
and route it to the create list, the update list, or neither (existing key
with updating disallowed), keeping the source record's index alongside its
row. -/
def classifySpec [DecidableEq α] (db : DB α) (table : String) (doUpdate : Bool)
    (keys : List String) (rows : List (List α)) :
    List (Nat × List α) → Except Err (List (Nat × List α) × List (Nat × List α))
  | [] => .ok ([], [])
  | (i, k) :: ps =>
    match rows[i]? with
    | none => .error .indexError
    | some data =>
      match classifySpec db table doUpdate keys rows ps with
      | .error e => .error e
      | .ok (c, u) =>
        if check_exists db table (keys.zip k) = some true then
          if doUpdate = false then .ok (c, u) else .ok (c, (i, data) :: u)
        else .ok ((i, data) :: c, u)

/-- Positional correspondence between a resolver's output and its input:
same length, and the id and input value at each common position form a row
of the query result. -/
abbrev posCorrect [DecidableEq α] (result : List (α × α)) (values ids : List α) : Prop :=
  ids.length = values.length ∧ ∀ p ∈ ids.zip values, p ∈ result

/-- Store oracle with no rows and no existing keys. -/
def dbEmptyFalse : DB Nat := ⟨fun _ _ _ => .ok [], fun _ _ => .ok false⟩

/-- Store oracle with no rows in which every existence check succeeds. -/
def dbEmptyTrue : DB Nat := ⟨fun _ _ _ => .ok [], fun _ _ => .ok true⟩

/-- Store oracle whose existence query raises a database error. -/
def dbExistsErr : DB Nat := ⟨fun _ _ _ => .ok [], fun _ _ => .error "connection lost"⟩

/-- Store oracle resolving both raw values 10 and 20 to the primary key 5. -/
def dbResolve5 : DB Nat := ⟨fun _ _ _ => .ok [(5, 10), (5, 20)], fun _ _ => .ok false⟩

/-- Store oracle with rows mapping value 0 to the two primary keys 1 and 2,
and value 2 to primary key 3 (value 1 is unmatched). -/
def dbDupRows : DB Nat := ⟨fun _ _ _ => .ok [(1, 0), (2, 0), (3, 2)], fun _ _ => .ok false⟩

/-- Store oracle with the single row mapping value 3 to primary key 7. -/
def dbOneRow : DB Nat := ⟨fun _ _ _ => .ok [(7, 3)], fun _ _ => .ok false⟩

/-- Descriptor with a single field that is also the match key. -/
def metaId : PSQLItemMeta := ⟨"t", ["id"], ["id"], [], true⟩

/-- Like `metaId` but with updating disallowed. -/
def metaIdNoUp : PSQLItemMeta := ⟨"t", ["id"], ["id"], [], false⟩

/-- Descriptor with no match fields. -/
def metaNoMatch : PSQLItemMeta := ⟨"t", ["id"], [], [], true⟩

/-- Descriptor whose single match field carries a substitution rule. -/
def metaSub : PSQLItemMeta := ⟨"t", ["a"], ["a"], [("a", ⟨"nk", none⟩)], true⟩

/-- Descriptor with two fields of which only the second is a match field. -/
def metaAB : PSQLItemMeta := ⟨"t", ["a", "b"], ["b"], [], true⟩

/-- Batch with one record: id 1. -/
def itemOne : String → Option (List Nat) := fun f => if f = "id" then some [1] else none

/-- Batch with three records: ids 1, 1, 2. -/
def itemDup : String → Option (List Nat) := fun f => if f = "id" then some [1, 1, 2] else none

/-- Batch with two records supplying raw values 10 and 20 for field a. -/
def itemA2 : String → Option (List Nat) := fun f => if f = "a" then some [10, 20] else none

/-- Batch whose column for field a has one value but whose column for
field b has two. -/
def itemAB : String → Option (List Nat) :=
  fun f => if f = "a" then some [1] else if f = "b" then some [10, 20] else none

theorem distributeLoop_eq_classifySpec [DecidableEq α] (db : DB α) (table : String)
    (doUpdate : Bool) (keys : List String) (rows : List (List α)) :
    ∀ (ms : List (Nat × List α)) (processed : List (List α)) (tc tu : List (List α)),
    distributeLoop db table doUpdate keys rows processed tc tu ms =
      (classifySpec db table doUpdate keys rows (dedupByKey processed ms)).map
        (fun r => (tc ++ r.1.map Prod.snd, tu ++ r.2.map Prod.snd)) := by
  intro ms
  induction ms with
  | nil => intro processed tc tu; simp [distributeLoop, dedupByKey, classifySpec, Except.map]
  | cons hd ms ih =>
    obtain ⟨i, k⟩ := hd
    intro processed tc tu
    by_cases hk : k ∈ processed
    · simp only [distributeLoop, dedupByKey, if_pos hk]
      exact ih processed tc tu
    · cases hg : rows[i]? with
      | none => simp [distributeLoop, dedupByKey, classifySpec, hk, hg, Except.map]
      | some data =>
        by_cases hex : check_exists db table (keys.zip k) = some true
        · cases hdU : doUpdate with
          | false =>
            subst hdU
            rw [show distributeLoop db table false keys rows processed tc tu ((i, k) :: ms) =
                distributeLoop db table false keys rows (k :: processed) tc tu ms by
                  simp [distributeLoop, hk, hg, hex],
              ih (k :: processed) tc tu]
            cases hcs : classifySpec db table false keys rows (dedupByKey (k :: processed) ms) with
            | error e => simp [classifySpec, dedupByKey, hk, hg, hcs, hex, Except.map]
            | ok r =>
              obtain ⟨c, u⟩ := r
              simp [classifySpec, dedupByKey, hk, hg, hcs, hex, Except.map]
          | true =>
            subst hdU
            rw [show distributeLoop db table true keys rows processed tc tu ((i, k) :: ms) =
                distributeLoop db table true keys rows (k :: processed) tc (tu ++ [data]) ms by
                  simp [distributeLoop, hk, hg, hex],
              ih (k :: processed) tc (tu ++ [data])]
            cases hcs : classifySpec db table true keys rows (dedupByKey (k :: processed) ms) with
            | error e => simp [classifySpec, dedupByKey, hk, hg, hcs, hex, Except.map]
            | ok r =>
              obtain ⟨c, u⟩ := r
              simp [classifySpec, dedupByKey, hk, hg, hcs, hex, Except.map]
        · rw [show distributeLoop db table doUpdate keys rows processed tc tu ((i, k) :: ms) =
              distributeLoop db table doUpdate keys rows (k :: processed) (tc ++ [data]) tu ms by
                simp [distributeLoop, hk, hg, hex],
            ih (k :: processed) (tc ++ [data]) tu]
          cases hcs : classifySpec db table doUpdate keys rows (dedupByKey (k :: processed) ms) with
          | error e => simp [classifySpec, dedupByKey, hk, hg, hcs, hex, Except.map]
          | ok r =>
            obtain ⟨c, u⟩ := r
            simp [classifySpec, dedupByKey, hk, hg, hcs, hex, Except.map]

theorem classifySpec_mem [DecidableEq α] (db : DB α) (table : String) (doUpdate : Bool)
    (keys : List String) (rows : List (List α)) :
    ∀ (ps : List (Nat × List α)) (c u : List (Nat × List α)),
    classifySpec db table doUpdate keys rows ps = .ok (c, u) →
    ∀ p ∈ c ++ u, p.1 ∈ ps.map Prod.fst ∧ rows[p.1]? = some p.2 := by
  intro ps
  induction ps with
  | nil =>
    intro c u hok p hp
    simp [classifySpec] at hok
    obtain ⟨rfl, rfl⟩ := hok
    simp at hp
  | cons hd ps ih =>
    obtain ⟨i, k⟩ := hd
    intro c u hok p hp
    cases hg : rows[i]? with
    | none => simp [classifySpec, hg] at hok
    | some data =>
      cases hcs : classifySpec db table doUpdate keys rows ps with
      | error e => simp [classifySpec, hg, hcs] at hok
      | ok r =>
        obtain ⟨c0, u0⟩ := r
        by_cases hex : check_exists db table (keys.zip k) = some true
        · cases hdU : doUpdate with
          | false =>
            subst hdU
            simp [classifySpec, hg, hcs, hex] at hok
            obtain ⟨rfl, rfl⟩ := hok
            obtain ⟨h1, h2⟩ := ih c0 u0 hcs p hp
            exact ⟨by simp [h1], h2⟩
          | true =>
            subst hdU
            simp [classifySpec, hg, hcs, hex] at hok
            obtain ⟨rfl, rfl⟩ := hok
            rcases List.mem_append.mp hp with hpc | hpu
            · obtain ⟨h1, h2⟩ := ih c0 u0 hcs p (List.mem_append.mpr (Or.inl hpc))
              exact ⟨by simp [h1], h2⟩
            · rcases List.mem_cons.mp hpu with rfl | hpu0
              · exact ⟨by simp, hg⟩
              · obtain ⟨h1, h2⟩ := ih c0 u0 hcs p (List.mem_append.mpr (Or.inr hpu0))
                exact ⟨by simp [h1], h2⟩
        · simp [classifySpec, hg, hcs, hex] at hok
          obtain ⟨rfl, rfl⟩ := hok
          rcases List.mem_append.mp hp with hpc | hpu
          · rcases List.mem_cons.mp hpc with rfl | hpc0
            · exact ⟨by simp, hg⟩
            · obtain ⟨h1, h2⟩ := ih c0 u0 hcs p (List.mem_append.mpr (Or.inl hpc0))
              exact ⟨by simp [h1], h2⟩
          · obtain ⟨h1, h2⟩ := ih c0 u0 hcs p (List.mem_append.mpr (Or.inr hpu))
            exact ⟨by simp [h1], h2⟩

theorem classifySpec_nodup [DecidableEq α] (db : DB α) (table : String) (doUpdate : Bool)
    (keys : List String) (rows : List (List α)) :
    ∀ (ps : List (Nat × List α)) (c u : List (Nat × List α)),
    classifySpec db table doUpdate keys rows ps = .ok (c, u) →
    (ps.map Prod.fst).Nodup → (c.map Prod.fst ++ u.map Prod.fst).Nodup := by
  intro ps
  induction ps with
  | nil =>
    intro c u hok hnd
    simp [classifySpec] at hok
    obtain ⟨rfl, rfl⟩ := hok
    simp
  | cons hd ps ih =>
    obtain ⟨i, k⟩ := hd
    intro c u hok hnd
    simp only [List.map_cons, List.nodup_cons] at hnd
    obtain ⟨hni, hnd⟩ := hnd
    cases hg : rows[i]? with
    | none => simp [classifySpec, hg] at hok
    | some data =>
      cases hcs : classifySpec db table doUpdate keys rows ps with
      | error e => simp [classifySpec, hg, hcs] at hok
      | ok r =>
        obtain ⟨c0, u0⟩ := r
        have hsub : ∀ p ∈ c0 ++ u0, p.1 ∈ ps.map Prod.fst ∧ rows[p.1]? = some p.2 :=
          classifySpec_mem db table doUpdate keys rows ps c0 u0 hcs
        have hnic : i ∉ c0.map Prod.fst ++ u0.map Prod.fst := by
          intro hmem
          rcases List.mem_append.mp hmem with hc | hu
        <;> first
          | (obtain ⟨p, hpm, hpe⟩ := List.mem_map.mp hc
             exact hni (hpe ▸ (hsub p (List.mem_append.mpr (Or.inl hpm))).1))
          | (obtain ⟨p, hpm, hpe⟩ := List.mem_map.mp hu
             exact hni (hpe ▸ (hsub p (List.mem_append.mpr (Or.inr hpm))).1))
        have hnd0 := ih c0 u0 hcs hnd
        by_cases hex : check_exists db table (keys.zip k) = some true
        · cases hdU : doUpdate with
          | false =>
            subst hdU
            simp [classifySpec, hg, hcs, hex] at hok
            obtain ⟨rfl, rfl⟩ := hok
            exact hnd0
          | true =>
            subst hdU
            simp [classifySpec, hg, hcs, hex] at hok
            obtain ⟨rfl, rfl⟩ := hok
            simp only [List.map_cons]
            exact List.nodup_middle.mpr (List.nodup_cons.mpr ⟨hnic, hnd0⟩)
        · simp [classifySpec, hg, hcs, hex] at hok
          obtain ⟨rfl, rfl⟩ := hok
          simp only [List.map_cons, List.cons_append, List.nodup_cons]
          exact ⟨hnic, hnd0⟩

theorem classifySpec_no_update [DecidableEq α] (db : DB α) (table : String)
    (keys : List String) (rows : List (List α)) :
    ∀ (ps : List (Nat × List α)) (c u : List (Nat × List α)),
    classifySpec db table false keys rows ps = .ok (c, u) → u = [] := by
  intro ps
  induction ps with
  | nil =>
    intro c u hok
    simp [classifySpec] at hok
    exact hok.2
  | cons hd ps ih =>
    obtain ⟨i, k⟩ := hd
    intro c u hok
    cases hg : rows[i]? with
    | none => simp [classifySpec, hg] at hok
    | some data =>
      cases hcs : classifySpec db table false keys rows ps with
      | error e => simp [classifySpec, hg, hcs] at hok
      | ok r =>
        obtain ⟨c0, u0⟩ := r
        by_cases hex : check_exists db table (keys.zip k) = some true
        · simp [classifySpec, hg, hcs, hex] at hok
          exact hok.2 ▸ ih c0 u0 hcs
        · simp [classifySpec, hg, hcs, hex] at hok
          exact hok.2 ▸ ih c0 u0 hcs

theorem classifySpec_drops_existing [DecidableEq α] (db : DB α) (table : String)
    (keys : List String) (rows : List (List α)) :
    ∀ (ps : List (Nat × List α)) (c u : List (Nat × List α)) (i : Nat) (k : List α),
    classifySpec db table false keys rows ps = .ok (c, u) →
    (i, k) ∈ ps → check_exists db table (keys.zip k) = some true →
    (ps.map Prod.fst).Nodup → i ∉ c.map Prod.fst := by
  intro ps
  induction ps with
  | nil => intro c u i k _ hmem; simp at hmem
  | cons hd ps ih =>
    obtain ⟨j, k'⟩ := hd
    intro c u i k hok hmem hex hnd
    simp only [List.map_cons, List.nodup_cons] at hnd
    obtain ⟨hnj, hnd⟩ := hnd
    cases hg : rows[j]? with
    | none => simp [classifySpec, hg] at hok
    | some data =>
      cases hcs : classifySpec db table false keys rows ps with
      | error e => simp [classifySpec, hg, hcs] at hok
      | ok r =>
        obtain ⟨c0, u0⟩ := r
        have hsub : ∀ p ∈ c0 ++ u0, p.1 ∈ ps.map Prod.fst ∧ rows[p.1]? = some p.2 :=
          classifySpec_mem db table false keys rows ps c0 u0 hcs
        by_cases hex' : check_exists db table (keys.zip k') = some true
        · simp [classifySpec, hg, hcs, hex'] at hok
          obtain ⟨rfl, rfl⟩ := hok
          rcases List.mem_cons.mp hmem with heq | hmem0
          · obtain ⟨rfl, rfl⟩ : j = i ∧ k' = k := by
              constructor <;> [exact (Prod.mk.injEq _ _ _ _ ▸ heq).1.symm;
                exact (Prod.mk.injEq _ _ _ _ ▸ heq).2.symm]
            intro hic
            obtain ⟨p, hpm, hpe⟩ := List.mem_map.mp hic
            exact hnj (hpe ▸ (hsub p (List.mem_append.mpr (Or.inl hpm))).1)
          · exact ih c0 u0 i k hcs hmem0 hex hnd
        · simp [classifySpec, hg, hcs, hex'] at hok
          obtain ⟨rfl, rfl⟩ := hok
          rcases List.mem_cons.mp hmem with heq | hmem0
          · exact absurd ((Prod.mk.injEq _ _ _ _ ▸ heq).2 ▸ hex) hex'
          · intro hic
            simp only [List.map_cons, List.mem_cons] at hic
            rcases hic with rfl | hic0
            · exact hnj (List.mem_map.mpr ⟨(i, k), hmem0, rfl⟩)
            · exact ih c0 u0 i k hcs hmem0 hex hnd hic0

theorem classifySpec_total [DecidableEq α] (db : DB α) (table : String) (doUpdate : Bool)
    (keys : List String) (rows : List (List α)) :
    ∀ (ps : List (Nat × List α)), (∀ p ∈ ps, p.1 < rows.length) →
    ∃ c u, classifySpec db table doUpdate keys rows ps = .ok (c, u) := by
  intro ps
  induction ps with
  | nil => intro _; exact ⟨[], [], rfl⟩
  | cons hd ps ih =>
    obtain ⟨i, k⟩ := hd
    intro hin
    obtain ⟨c0, u0, hcs⟩ := ih fun p hp => hin p (List.mem_cons_of_mem _ hp)
    have hg : ∃ data, rows[i]? = some data := by
      have hlt := hin (i, k) (List.mem_cons_self _ _)
      exact ⟨rows[i], List.getElem?_eq_getElem hlt⟩
    obtain ⟨data, hg⟩ := hg
    by_cases hex : check_exists db table (keys.zip k) = some true
    · cases hdU : doUpdate with
      | false => subst hdU; exact ⟨c0, u0, by simp [classifySpec, hg, hcs, hex]⟩
      | true => subst hdU; exact ⟨c0, (i, data) :: u0, by simp [classifySpec, hg, hcs, hex]⟩
    · exact ⟨(i, data) :: c0, u0, by simp [classifySpec, hg, hcs, hex]⟩

theorem dedupByKey_sublist [DecidableEq α] :
    ∀ (ps : List (Nat × List α)) (processed : List (List α)),
    (dedupByKey processed ps).Sublist ps := by
  intro ps
  induction ps with
  | nil => intro processed; simp [dedupByKey]
  | cons hd ps ih =>
    obtain ⟨i, k⟩ := hd
    intro processed
    by_cases hk : k ∈ processed
    · simp only [dedupByKey, if_pos hk]
      exact (ih processed).cons _
    · simp only [dedupByKey, if_neg hk]
      exact (ih (k :: processed)).cons₂ _

theorem heads?_none_mem (cs : List (List α)) (h : heads? cs = none) :
    ∃ c ∈ cs, c = [] := by
  induction cs with
  | nil => simp [heads?] at h
  | cons c0 cs ih =>
    cases c0 with
    | nil => exact ⟨[], List.mem_cons_self _ _, rfl⟩
    | cons x xs =>
      cases hcs : heads? cs with
      | none =>
        obtain ⟨c, hc, hce⟩ := ih hcs
        exact ⟨c, List.mem_cons_of_mem _ hc, hce⟩
      | some r => obtain ⟨hs, ts⟩ := r; simp [heads?, hcs] at h

theorem heads?_mem (cs : List (List α)) (hs : List α) (ts : List (List α))
    (h : heads? cs = some (hs, ts)) : ∀ c ∈ cs, ∃ x t, c = x :: t ∧ t ∈ ts := by
  induction cs generalizing hs ts with
  | nil => intro c hc; simp at hc
  | cons c0 cs ih =>
    intro c hc
    cases c0 with
    | nil => simp [heads?] at h
    | cons x xs =>
      cases hcs : heads? cs with
      | none => simp [heads?, hcs] at h
      | some r =>
        obtain ⟨hs', ts'⟩ := r
        simp only [heads?, hcs, Option.some.injEq, Prod.mk.injEq] at h
        obtain ⟨rfl, rfl⟩ := h
        rcases List.mem_cons.mp hc with rfl | hc0
        · exact ⟨x, xs, rfl, List.mem_cons_self _ _⟩
        · obtain ⟨y, t, hct, htm⟩ := ih hs' ts' hcs c hc0
          exact ⟨y, t, hct, List.mem_cons_of_mem _ htm⟩

theorem heads?_mem_rev (cs : List (List α)) (hs : List α) (ts : List (List α))
    (h : heads? cs = some (hs, ts)) : ∀ t ∈ ts, ∃ x, x :: t ∈ cs := by
  induction cs generalizing hs ts with
  | nil =>
    intro t ht
    simp only [heads?, Option.some.injEq, Prod.mk.injEq] at h
    obtain ⟨rfl, rfl⟩ := h
    simp at ht
  | cons c0 cs ih =>
    intro t ht
    cases c0 with
    | nil => simp [heads?] at h
    | cons x xs =>
      cases hcs : heads? cs with
      | none => simp [heads?, hcs] at h
      | some r =>
        obtain ⟨hs', ts'⟩ := r
        simp only [heads?, hcs, Option.some.injEq, Prod.mk.injEq] at h
        obtain ⟨rfl, rfl⟩ := h
        rcases List.mem_cons.mp ht with rfl | ht0
        · exact ⟨x, List.mem_cons_self _ _⟩
        · obtain ⟨y, hy⟩ := ih hs' ts' hcs t ht0
          exact ⟨y, List.mem_cons_of_mem _ hy⟩

theorem transposeAux_length_le (first : List α) (rest : List (List α)) :
    (transposeAux first rest).length ≤ first.length ∧
    ∀ c ∈ rest, (transposeAux first rest).length ≤ c.length := by
  induction first generalizing rest with
  | nil => simp [transposeAux]
  | cons x xs ih =>
    cases hh : heads? rest with
    | none => simp [transposeAux, hh]
    | some r =>
      obtain ⟨hs, ts⟩ := r
      simp only [transposeAux, hh, List.length_cons]
      constructor
      · exact Nat.succ_le_succ (ih ts).1
      · intro c hc
        obtain ⟨y, t, rfl, htm⟩ := heads?_mem rest hs ts hh c hc
        simpa using Nat.succ_le_succ ((ih ts).2 t htm)

theorem transposeAux_length_eq (first : List α) (rest : List (List α)) :
    (transposeAux first rest).length = first.length ∨
    ∃ c ∈ rest, (transposeAux first rest).length = c.length := by
  induction first generalizing rest with
  | nil => simp [transposeAux]
  | cons x xs ih =>
    cases hh : heads? rest with
    | none =>
      obtain ⟨c, hc, rfl⟩ := heads?_none_mem rest hh
      exact Or.inr ⟨[], hc, by simp [transposeAux, hh]⟩
    | some r =>
      obtain ⟨hs, ts⟩ := r
      rcases ih ts with heq | ⟨t, htm, heq⟩
      · exact Or.inl (by simp [transposeAux, hh, heq])
      · obtain ⟨y, hy⟩ := heads?_mem_rev rest hs ts hh t htm
        exact Or.inr ⟨y :: t, hy, by simp [transposeAux, hh, heq]⟩

theorem pyZip_length_le (cols : List (List α)) :
    ∀ c ∈ cols, (pyZip cols).length ≤ c.length := by
  cases cols with
  | nil => simp
  | cons c0 cs =>
    intro c hc
    rcases List.mem_cons.mp hc with rfl | hc0
    · exact (transposeAux_length_le c cs).1
    · exact (transposeAux_length_le c0 cs).2 c hc0

theorem pyZip_length_exists (cols : List (List α)) (h : cols ≠ []) :
    ∃ c ∈ cols, (pyZip cols).length = c.length := by
  cases cols with
  | nil => exact absurd rfl h
  | cons c0 cs =>
    rcases transposeAux_length_eq c0 cs with heq | ⟨c, hc, heq⟩
    · exact ⟨c0, List.mem_cons_self _ _, heq⟩
    · exact ⟨c, List.mem_cons_of_mem _ hc, heq⟩

theorem flatMap_length_le (f : α → List β) (vs : List α)
    (h : ∀ v ∈ vs, (f v).length ≤ 1) : (vs.flatMap f).length ≤ vs.length := by
  induction vs with
  | nil => simp
  | cons v vs ih =>
    simp only [List.flatMap_cons, List.length_append, List.length_cons]
    have h1 := h v (List.mem_cons_self _ _)
    have h2 := ih fun w hw => h w (List.mem_cons_of_mem _ hw)
    omega

theorem flatMap_zip_mem (f : α → List β) (vs : List α)
    (h1 : ∀ v ∈ vs, (f v).length ≤ 1) (h2 : (vs.flatMap f).length = vs.length) :
    ∀ b v, (b, v) ∈ (vs.flatMap f).zip vs → b ∈ f v := by
  induction vs with
  | nil => intro b v hm; simp at hm
  | cons v0 vs ih =>
    intro b v hm
    have ha' := h1 v0 (List.mem_cons_self _ _)
    have hb' := flatMap_length_le f vs fun w hw => h1 w (List.mem_cons_of_mem _ hw)
    have hlen : (f v0).length + (vs.flatMap f).length = vs.length + 1 := by
      simpa [List.flatMap_cons] using h2
    have hf0 : (f v0).length = 1 := by omega
    obtain ⟨a, ha⟩ := List.length_eq_one.mp hf0
    have hrest : (vs.flatMap f).length = vs.length := by
      rw [ha] at hlen
      simp only [List.length_cons, List.length_nil] at hlen
      omega
    rw [List.flatMap_cons, ha, List.singleton_append, List.zip_cons_cons] at hm
    rcases List.mem_cons.mp hm with heq | hm0
    · obtain ⟨heb, hev⟩ := Prod.ext_iff.mp heq
      simp only at heb hev
      rw [hev, ha, heb]
      exact List.mem_singleton_self a
    · exact ih (fun w hw => h1 w (List.mem_cons_of_mem _ hw)) hrest b v hm0

theorem match_ids_congr [DecidableEq α] (db db' : DB α)
    (h : db.selectCond = db'.selectCond) (t f : String) (values : List α) :
    match_ids db t f values = match_ids db' t f values := by
  unfold match_ids
  rw [h]

theorem collectColumns_congr [DecidableEq α] (db db' : DB α) (m : PSQLItemMeta)
    (item : String → Option (List α)) (h : db.selectCond = db'.selectCond) :
    ∀ fs : List String, collectColumns db m item fs = collectColumns db' m item fs := by
  have hmi : match_ids (α := α) db = match_ids db' := by
    funext t f v
    exact match_ids_congr db db' h t f v
  intro fs
  induction fs with
  | nil => rfl
  | cons f rest ih =>
    simp only [collectColumns]
    rw [hmi, ih]

theorem distribute_data_unfold [DecidableEq α] (db : DB α) (m : PSQLItemMeta)
    (item : String → Option (List α)) (cols : List (String × List α))
    (hc : collectColumns db m item m.fields = .ok cols)
    (hmf : m.match_fields ≠ []) :
    distribute_data db m item =
      (classifySpec db m.db_table m.do_update
          ((cols.filter fun p => p.1 ∈ m.match_fields).map Prod.fst)
          (pyZip (cols.map Prod.snd))
          (dedupByKey []
            (pyZip ((cols.filter fun p => p.1 ∈ m.match_fields).map Prod.snd)).enum)).map
        (fun r => ⟨cols.map Prod.fst, r.2.map Prod.snd, r.1.map Prod.snd⟩) := by
  cases hcs : classifySpec db m.db_table m.do_update
      ((cols.filter fun p => p.1 ∈ m.match_fields).map Prod.fst)
      (pyZip (cols.map Prod.snd))
      (dedupByKey [] (pyZip ((cols.filter fun p => p.1 ∈ m.match_fields).map Prod.snd)).enum) with
  | error e =>
    simp [distribute_data, hc, hmf, distributeLoop_eq_classifySpec, hcs, Except.map]
  | ok r =>
    obtain ⟨c, u⟩ := r
    simp [distribute_data, hc, hmf, distributeLoop_eq_classifySpec, hcs, Except.map]

theorem distribute_data_unfold_nomatch [DecidableEq α] (db : DB α) (m : PSQLItemMeta)
    (item : String → Option (List α)) (cols : List (String × List α))
    (hc : collectColumns db m item m.fields = .ok cols)
    (hmf : m.match_fields = []) :
    distribute_data db m item = .ok ⟨cols.map Prod.fst, [], pyZip (cols.map Prod.snd)⟩ := by
  simp [distribute_data, hc, hmf]

/-- C8: on every bulk flush, `create` and `update` either succeed with the
outcome of the single `execute_values` statement committed (committed and
pending state both equal to its result), or fail with the statement's
database error after rolling the transaction back (pending reset to the
previously committed state, which is unchanged) and re-raise that error —
so a batch is all-or-nothing. -/
theorem create_update_commit_or_rollback {α σ : Type}
    (execV : String → List (List α) → σ → Except String σ) (t : String)
    (fs ms : List String) (vs : List (List α)) (s : TxState σ) :
    ((∃ p, execV (sqlInsert t fs) vs s.pending = .ok p ∧
        create execV t fs vs s = (.ok (), ⟨p, p⟩)) ∨
     (∃ e, execV (sqlInsert t fs) vs s.pending = .error e ∧
        create execV t fs vs s = (.error e, ⟨s.committed, s.committed⟩))) ∧
    ((∃ p, execV (sqlUpdate t fs ms) vs s.pending = .ok p ∧
        update execV t fs ms vs s = (.ok (), ⟨p, p⟩)) ∨
     (∃ e, execV (sqlUpdate t fs ms) vs s.pending = .error e ∧
        update execV t fs ms vs s = (.error e, ⟨s.committed, s.committed⟩))) := by
  constructor
  · cases hx : execV (sqlInsert t fs) vs s.pending with
    | error e => exact Or.inr ⟨e, rfl, by simp [create, hx]⟩
    | ok p => exact Or.inl ⟨p, rfl, by simp [create, hx]⟩
  · cases hx : execV (sqlUpdate t fs ms) vs s.pending with
    | error e => exact Or.inr ⟨e, rfl, by simp [update, hx]⟩
    | ok p => exact Or.inl ⟨p, rfl, by simp [update, hx]⟩

/-- C9, counterexample: a Descriptor whose match field b is absent from
its field list is accepted by `PSQLItemMeta.__init__` — no match-field
validation happens at construction. -/
theorem meta_init_no_match_field_validation :
    PSQLItemMeta.init ⟨"t", ["a"], ["b"], [], true⟩ = .ok ⟨"t", ["a"], ["b"], [], true⟩ ∧
    "b" ∈ (⟨"t", ["a"], ["b"], [], true⟩ : PSQLItemMeta).match_fields ∧
    "b" ∉ (⟨"t", ["a"], ["b"], [], true⟩ : PSQLItemMeta).fields := by
  decide

/-- C9 (amended): construction of a Record Descriptor fails exactly when
the target table name is empty or the field list is empty; declared match
fields are not validated against the field list. -/
theorem meta_init_checks_table_and_fields_only (m : PSQLItemMeta) :
    (PSQLItemMeta.init m = .error .assertionError ↔ (m.db_table = "" ∨ m.fields = [])) ∧
    (PSQLItemMeta.init m = .ok m ↔ ¬(m.db_table = "" ∨ m.fields = [])) := by
  unfold PSQLItemMeta.init
  by_cases h : m.db_table = "" ∨ m.fields = [] <;> simp [h]

/-- C2: when the lookup query returns zero rows, `match_ids` returns the
empty sequence; when it returns at least one row, a resolved id sequence
whose length differs from the input length raises the assertion error, and
any successful return has exactly the input's length. -/
theorem match_ids_empty_or_strict_parity [DecidableEq α] (db : DB α) (t f : String)
    (values : List α) (result : List (α × α))
    (hq : db.selectCond t f values = .ok result) :
    (result = [] → match_ids db t f values = .ok []) ∧
    (result ≠ [] →
      (∀ ids, match_ids db t f values = .ok ids → ids.length = values.length) ∧
      ((values.flatMap fun v => result.filterMap fun p =>
          if v = p.2 then some p.1 else none).length ≠ values.length →
        match_ids db t f values = .error .assertionError)) := by
  have hm : match_ids db t f values =
      if result = [] then .ok [] else
        if (values.flatMap fun v => result.filterMap fun p =>
            if v = p.2 then some p.1 else none).length = values.length
        then .ok (values.flatMap fun v => result.filterMap fun p =>
            if v = p.2 then some p.1 else none)
        else .error .assertionError := by
    simp only [match_ids, hq]
  constructor
  · intro hr; rw [hm, if_pos hr]
  · intro hr
    rw [hm, if_neg hr]
    constructor
    · intro ids hok
      by_cases hl : (values.flatMap fun v => result.filterMap fun p =>
          if v = p.2 then some p.1 else none).length = values.length
      · rw [if_pos hl] at hok
        obtain rfl : _ = ids := Except.ok.injEq _ _ ▸ hok
        exact hl
      · rw [if_neg hl] at hok
        cases hok
    · intro hl
      rw [if_neg hl]

theorem match_ids_empty_or_strict_parity_witness :
    dbOneRow.selectCond "t" "nk" [3] = .ok [(7, 3)] ∧
    match_ids dbOneRow "t" "nk" [3] = .ok [7] ∧ ([7] : List Nat).length = [3].length :=
  ⟨rfl, rfl,
    ((match_ids_empty_or_strict_parity dbOneRow "t" "nk" [3] [(7, 3)] rfl).2
      (by decide)).1 [7] rfl⟩

/-- C3: the claim says an existence-check database error aborts the batch
with no writes, but the code swallows the error — `check_exists` returns
`none`, the record is classified as new, and `process_item` issues the
bulk insert for it anyway. -/
theorem exists_check_error_treated_as_absent :
    dbExistsErr.existsQ "t" [("id", 1)] = .error "connection lost" ∧
    check_exists dbExistsErr "t" [("id", 1)] = none ∧
    process_item dbExistsErr metaId itemOne = .ok [WriteOp.create "t" ["id"] [[1]]] :=
  ⟨rfl, rfl, by decide⟩

/-- C4, counterexample: with query result rows (1, 0), (2, 0), (3, 2) and
input values 0, 1, 2, resolution completes without error returning ids
1, 2, 3, yet the id at position 1 is the key of a row whose referenced
value is 0, not the input value 1 — positional correspondence fails. -/
theorem match_ids_positional_counterexample :
    dbDupRows.selectCond "t" "f" [0, 1, 2] = .ok [(1, 0), (2, 0), (3, 2)] ∧
    match_ids dbDupRows "t" "f" [0, 1, 2] = .ok [1, 2, 3] ∧
    ¬ posCorrect [(1, 0), (2, 0), (3, 2)] [0, 1, 2] [1, 2, 3] :=
  ⟨rfl, rfl, by decide⟩

/-- C4 (amended): when resolution completes without error and each input
value matches at most one returned row, the output preserves order and
positional correspondence — the id and the input value at each position
form a row of the query result — and, when at least one row matched, the
output has exactly the input's length. -/
theorem match_ids_positional_of_unique_matches [DecidableEq α] (db : DB α)
    (t f : String) (values : List α) (result : List (α × α)) (ids : List α)
    (hq : db.selectCond t f values = .ok result)
    (hok : match_ids db t f values = .ok ids)
    (huniq : ∀ v ∈ values, (result.filterMap fun p =>
        if v = p.2 then some p.1 else none).length ≤ 1) :
    (∀ p ∈ ids.zip values, p ∈ result) ∧ (result ≠ [] → ids.length = values.length) := by
  have hm : match_ids db t f values =
      if result = [] then .ok [] else
        if (values.flatMap fun v => result.filterMap fun p =>
            if v = p.2 then some p.1 else none).length = values.length
        then .ok (values.flatMap fun v => result.filterMap fun p =>
            if v = p.2 then some p.1 else none)
        else .error .assertionError := by
    simp only [match_ids, hq]
  rw [hm] at hok
  by_cases hr : result = []
  · rw [if_pos hr] at hok
    obtain rfl : _ = ids := Except.ok.injEq _ _ ▸ hok
    exact ⟨fun p hp => by simp at hp, fun h => absurd hr h⟩
  · rw [if_neg hr] at hok
    by_cases hl : (values.flatMap fun v => result.filterMap fun p =>
        if v = p.2 then some p.1 else none).length = values.length
    · rw [if_pos hl] at hok
      obtain rfl : _ = ids := Except.ok.injEq _ _ ▸ hok
      refine ⟨?_, fun _ => hl⟩
      intro p hp
      have hb := flatMap_zip_mem
        (fun v => result.filterMap fun q => if v = q.2 then some q.1 else none)
        values huniq hl p.1 p.2 hp
      obtain ⟨q, hqm, hqe⟩ := List.mem_filterMap.mp hb
      by_cases hv : p.2 = q.2
      · rw [if_pos hv] at hqe
        have hq1 : q.1 = p.1 := Option.some.injEq _ _ ▸ hqe
        have hqp : q = p := Prod.ext hq1 hv.symm
        rw [← hqp]
        exact hqm
      · rw [if_neg hv] at hqe
        cases hqe
    · rw [if_neg hl] at hok
      cases hok

theorem match_ids_positional_of_unique_matches_witness :
    (7, 3) ∈ ([(7, 3)] : List (Nat × Nat)) ∧ ([7] : List Nat).length = [3].length :=
  ⟨(match_ids_positional_of_unique_matches dbOneRow "t" "nk" [3] [(7, 3)] [7] rfl (by decide)
      (by decide)).1 (7, 3) (by decide),
   (match_ids_positional_of_unique_matches dbOneRow "t" "nk" [3] [(7, 3)] [7] rfl (by decide)
      (by decide)).2 (by decide)⟩

/-- C1, counterexample: the two records supply distinct raw match values
10 and 20 for the match field, both of which resolve to primary key 5;
deduplication compares the resolved values, so the second record is
dropped and only one row is classified — under the claimed raw-value
comparison both records would survive. -/
theorem dedup_on_resolved_values_counterexample :
    itemA2 "a" = some [10, 20] ∧ (10 : Nat) ≠ 20 ∧
    match_ids dbResolve5 "t" "nk" [10, 20] = .ok [5, 5] ∧
    distribute_data dbResolve5 metaSub itemA2 = .ok ⟨["a"], [], [[5]]⟩ :=
  ⟨rfl, by decide, by decide, by decide⟩

/-- C1 (amended): with non-empty match fields, `distribute_data` is
exactly the classification of the first occurrence of each match-key
tuple in record order (every later record with the same tuple is
dropped), where the tuples are drawn from the collected match-field
columns after foreign-key substitution, not from the raw supplied
values. -/
theorem dedup_first_occurrence_on_resolved_keys [DecidableEq α] (db : DB α)
    (m : PSQLItemMeta) (item : String → Option (List α)) (cols : List (String × List α))
    (hc : collectColumns db m item m.fields = .ok cols)
    (hmf : m.match_fields ≠ []) :
    distribute_data db m item =
      (classifySpec db m.db_table m.do_update
          ((cols.filter fun p => p.1 ∈ m.match_fields).map Prod.fst)
          (pyZip (cols.map Prod.snd))
          (dedupByKey []
            (pyZip ((cols.filter fun p => p.1 ∈ m.match_fields).map Prod.snd)).enum)).map
        (fun r => ⟨cols.map Prod.fst, r.2.map Prod.snd, r.1.map Prod.snd⟩) :=
  distribute_data_unfold db m item cols hc hmf

theorem dedup_first_occurrence_on_resolved_keys_witness :
    collectColumns dbEmptyFalse metaId itemDup metaId.fields = .ok [("id", [1, 1, 2])] ∧
    distribute_data dbEmptyFalse metaId itemDup =
      (classifySpec dbEmptyFalse metaId.db_table metaId.do_update
          (([("id", [1, 1, 2])].filter fun p => p.1 ∈ metaId.match_fields).map Prod.fst)
          (pyZip ([("id", [1, 1, 2])].map Prod.snd))
          (dedupByKey []
            (pyZip (([("id", [1, 1, 2])].filter fun p =>
              p.1 ∈ metaId.match_fields).map Prod.snd)).enum)).map
        (fun r => ⟨[("id", [1, 1, 2])].map Prod.fst, r.2.map Prod.snd, r.1.map Prod.snd⟩) :=
  ⟨rfl, dedup_first_occurrence_on_resolved_keys dbEmptyFalse metaId itemDup
    [("id", [1, 1, 2])] rfl (by decide)⟩

/-- C5: with an empty match-field list every transposed record tuple is
routed to `to_create`, `to_update` stays empty, and the outcome does not
depend on the existence-check oracle at all — no existence query is
consulted. -/
theorem no_match_fields_all_create [DecidableEq α] (db db' : DB α) (m : PSQLItemMeta)
    (item : String → Option (List α)) (cols : List (String × List α))
    (hmf : m.match_fields = [])
    (hsel : db.selectCond = db'.selectCond)
    (hc : collectColumns db m item m.fields = .ok cols) :
    distribute_data db m item = .ok ⟨cols.map Prod.fst, [], pyZip (cols.map Prod.snd)⟩ ∧
    distribute_data db' m item = distribute_data db m item := by
  have hc' : collectColumns db' m item m.fields = .ok cols := by
    rw [← collectColumns_congr db db' m item hsel m.fields]
    exact hc
  rw [distribute_data_unfold_nomatch db m item cols hc hmf,
    distribute_data_unfold_nomatch db' m item cols hc' hmf]
  exact ⟨rfl, rfl⟩

theorem no_match_fields_all_create_witness :
    distribute_data dbEmptyFalse metaNoMatch itemOne = .ok ⟨["id"], [], [[1]]⟩ ∧
    distribute_data dbEmptyTrue metaNoMatch itemOne =
      distribute_data dbEmptyFalse metaNoMatch itemOne :=
  no_match_fields_all_create dbEmptyFalse dbEmptyTrue metaNoMatch itemOne
    [("id", [1])] rfl rfl rfl

/-- C6: when updating is disallowed and the match-key tuple of record i
already exists in the store, the record contributes no entry to either
output: `to_update` is empty and no classified create entry stems from
record index i. -/
theorem update_disallowed_drops_existing [DecidableEq α] (db : DB α) (m : PSQLItemMeta)
    (item : String → Option (List α)) (cols : List (String × List α))
    (dd : DistributedData α) (i : Nat) (k : List α)
    (hc : collectColumns db m item m.fields = .ok cols)
    (hdU : m.do_update = false)
    (hmf : m.match_fields ≠ [])
    (hk : (pyZip ((cols.filter fun p => p.1 ∈ m.match_fields).map Prod.snd))[i]? = some k)
    (hex : check_exists db m.db_table
        (((cols.filter fun p => p.1 ∈ m.match_fields).map Prod.fst).zip k) = some true)
    (hok : distribute_data db m item = .ok dd) :
    dd.to_update = [] ∧
    ∃ cI : List (Nat × List α), dd.to_create = cI.map Prod.snd ∧
      i ∉ cI.map Prod.fst ∧
      ∀ p ∈ cI, (pyZip (cols.map Prod.snd))[p.1]? = some p.2 := by
  rw [distribute_data_unfold db m item cols hc hmf, hdU] at hok
  cases hcs : classifySpec db m.db_table false
      ((cols.filter fun p => p.1 ∈ m.match_fields).map Prod.fst)
      (pyZip (cols.map Prod.snd))
      (dedupByKey [] (pyZip ((cols.filter fun p => p.1 ∈ m.match_fields).map Prod.snd)).enum) with
  | error e => rw [hcs] at hok; cases hok
  | ok r =>
    obtain ⟨c, u⟩ := r
    rw [hcs] at hok
    obtain rfl : _ = dd := Except.ok.injEq _ _ ▸ hok
    have hu : u = [] := classifySpec_no_update db m.db_table _ _ _ c u hcs
    have hnd : ((dedupByKey []
        (pyZip ((cols.filter fun p => p.1 ∈ m.match_fields).map Prod.snd)).enum).map
          Prod.fst).Nodup :=
      (List.nodup_enum_map_fst _).sublist ((dedupByKey_sublist _ []).map Prod.fst)
    refine ⟨by simp [hu], c, rfl, ?_, fun p hp =>
      (classifySpec_mem db m.db_table false _ _ _ c u hcs p
        (List.mem_append.mpr (Or.inl hp))).2⟩
    by_cases hmem : i ∈ (dedupByKey []
        (pyZip ((cols.filter fun p => p.1 ∈ m.match_fields).map Prod.snd)).enum).map Prod.fst
    · obtain ⟨q, hqm, hqe⟩ := List.mem_map.mp hmem
      have hqenum : q ∈ (pyZip ((cols.filter fun p =>
          p.1 ∈ m.match_fields).map Prod.snd)).enum :=
        (dedupByKey_sublist _ []).subset hqm
      have hq2 := List.mem_enum_iff_getElem?.mp hqenum
      rw [hqe, hk] at hq2
      have hk2 : q.2 = k := (Option.some.injEq _ _ ▸ hq2).symm
      have hmem' : (i, k) ∈ dedupByKey []
          (pyZip ((cols.filter fun p => p.1 ∈ m.match_fields).map Prod.snd)).enum := by
        have hqik : q = (i, k) := Prod.ext hqe hk2
        rwa [hqik] at hqm
      exact classifySpec_drops_existing db m.db_table _ _ _ c u i k hcs hmem' hex hnd
    · intro hic
      obtain ⟨p, hpm, hpe⟩ := List.mem_map.mp hic
      exact hmem (hpe ▸ (classifySpec_mem db m.db_table false _ _ _ c u hcs p
        (List.mem_append.mpr (Or.inl hpm))).1)

theorem update_disallowed_drops_existing_witness :
    DistributedData.to_update (α := Nat) ⟨["id"], [], []⟩ = [] ∧
    ∃ cI : List (Nat × List Nat),
      DistributedData.to_create (α := Nat) ⟨["id"], [], []⟩ = cI.map Prod.snd ∧
      0 ∉ cI.map Prod.fst ∧
      ∀ p ∈ cI, (pyZip ([("id", [1])].map Prod.snd))[p.1]? = some p.2 :=
  update_disallowed_drops_existing dbEmptyTrue metaIdNoUp itemOne [("id", [1])]
    ⟨["id"], [], []⟩ 0 [1] rfl rfl (by decide) (by decide) (by decide) (by decide)

/-- C7: the two output sequences are disjoint with respect to source
record identity — there is an assignment of pairwise distinct record
indices to the tuples of `to_create` and `to_update` under which every
tuple is the transposed row at its index, so each record lands in exactly
one sequence or in neither. -/
theorem to_create_to_update_disjoint [DecidableEq α] (db : DB α) (m : PSQLItemMeta)
    (item : String → Option (List α)) (cols : List (String × List α))
    (dd : DistributedData α)
    (hc : collectColumns db m item m.fields = .ok cols)
    (hok : distribute_data db m item = .ok dd) :
    ∃ cI uI : List (Nat × List α),
      dd.to_create = cI.map Prod.snd ∧ dd.to_update = uI.map Prod.snd ∧
      (cI.map Prod.fst ++ uI.map Prod.fst).Nodup ∧
      ∀ p ∈ cI ++ uI, (pyZip (cols.map Prod.snd))[p.1]? = some p.2 := by
  by_cases hmf : m.match_fields = []
  · rw [distribute_data_unfold_nomatch db m item cols hc hmf] at hok
    obtain rfl : _ = dd := Except.ok.injEq _ _ ▸ hok
    refine ⟨(pyZip (cols.map Prod.snd)).enum, [], ?_, rfl, ?_, ?_⟩
    · simp [List.enum_map_snd]
    · simp [List.nodup_enum_map_fst, List.nodup_range]
    · intro p hp
      simp only [List.append_nil] at hp
      exact List.mem_enum_iff_getElem?.mp hp
  · rw [distribute_data_unfold db m item cols hc hmf] at hok
    cases hcs : classifySpec db m.db_table m.do_update
        ((cols.filter fun p => p.1 ∈ m.match_fields).map Prod.fst)
        (pyZip (cols.map Prod.snd))
        (dedupByKey [] (pyZip ((cols.filter fun p =>
          p.1 ∈ m.match_fields).map Prod.snd)).enum) with
    | error e => rw [hcs] at hok; cases hok
    | ok r =>
      obtain ⟨c, u⟩ := r
      rw [hcs] at hok
      obtain rfl : _ = dd := Except.ok.injEq _ _ ▸ hok
      have hnd : ((dedupByKey []
          (pyZip ((cols.filter fun p => p.1 ∈ m.match_fields).map Prod.snd)).enum).map
            Prod.fst).Nodup :=
        (List.nodup_enum_map_fst _).sublist ((dedupByKey_sublist _ []).map Prod.fst)
      refine ⟨c, u, rfl, rfl,
        classifySpec_nodup db m.db_table m.do_update _ _ _ c u hcs hnd, ?_⟩
      intro p hp
      exact (classifySpec_mem db m.db_table m.do_update _ _ _ c u hcs p hp).2

theorem to_create_to_update_disjoint_witness :
    ∃ cI uI : List (Nat × List Nat),
      DistributedData.to_create (α := Nat) ⟨["id"], [], [[1], [2]]⟩ = cI.map Prod.snd ∧
      DistributedData.to_update (α := Nat) ⟨["id"], [], [[1], [2]]⟩ = uI.map Prod.snd ∧
      (cI.map Prod.fst ++ uI.map Prod.fst).Nodup ∧
      ∀ p ∈ cI ++ uI, (pyZip ([("id", [1, 1, 2])].map Prod.snd))[p.1]? = some p.2 :=
  to_create_to_update_disjoint dbEmptyFalse metaId itemDup [("id", [1, 1, 2])]
    ⟨["id"], [], [[1], [2]]⟩ rfl (by decide)

/-- C10, counterexample: the collected columns have unequal lengths (one
value for field a, two for field b) and the shortest column is not a
match-key column; the extra match-key row makes the loop index the
transposed rows out of range, so `distribute_data` raises an index error
instead of silently dropping the record. -/
theorem unequal_columns_raise_index_error :
    itemAB "a" = some [1] ∧ itemAB "b" = some [10, 20] ∧
    ([1] : List Nat).length ≠ ([10, 20] : List Nat).length ∧
    distribute_data dbEmptyFalse metaAB itemAB = .error .indexError :=
  ⟨rfl, rfl, by decide, by decide⟩

/-- C10 (amended): row transposition truncates to the length of the
shortest collected column, and when every first-occurrence match-key
index lies below the truncated row count (in particular whenever the
match-field list is empty) the batch completes without error, every
emitted tuple being one of the rows within the truncated range — records
beyond the shortest column are silently dropped; otherwise (see the
counterexample) an index error is raised. -/
theorem transposition_truncates_silently_when_in_range [DecidableEq α] (db : DB α)
    (m : PSQLItemMeta) (item : String → Option (List α)) (cols : List (String × List α))
    (hc : collectColumns db m item m.fields = .ok cols)
    (hin : ∀ p ∈ dedupByKey []
        (pyZip ((cols.filter fun q => q.1 ∈ m.match_fields).map Prod.snd)).enum,
        p.1 < (pyZip (cols.map Prod.snd)).length) :
    ∃ dd, distribute_data db m item = .ok dd ∧
      (∀ c ∈ cols, (pyZip (cols.map Prod.snd)).length ≤ c.2.length) ∧
      (cols ≠ [] → ∃ c ∈ cols, (pyZip (cols.map Prod.snd)).length = c.2.length) ∧
      (∀ row ∈ dd.to_create ++ dd.to_update, ∃ j, j < (pyZip (cols.map Prod.snd)).length ∧
        (pyZip (cols.map Prod.snd))[j]? = some row) := by
  have hle : ∀ c ∈ cols, (pyZip (cols.map Prod.snd)).length ≤ c.2.length := by
    intro c hcm
    exact pyZip_length_le (cols.map Prod.snd) c.2 (List.mem_map_of_mem _ hcm)
  have hexq : cols ≠ [] → ∃ c ∈ cols, (pyZip (cols.map Prod.snd)).length = c.2.length := by
    intro hne
    obtain ⟨col, hcm, heq⟩ := pyZip_length_exists (cols.map Prod.snd) (by simpa using hne)
    obtain ⟨c, hcc, rfl⟩ := List.mem_map.mp hcm
    exact ⟨c, hcc, heq⟩
  by_cases hmf : m.match_fields = []
  · refine ⟨⟨cols.map Prod.fst, [], pyZip (cols.map Prod.snd)⟩,
      distribute_data_unfold_nomatch db m item cols hc hmf, hle, hexq, ?_⟩
    intro row hrow
    simp only [List.append_nil] at hrow
    obtain ⟨j, hj⟩ := List.mem_iff_get?.mp hrow
    rw [List.get?_eq_getElem?] at hj
    obtain ⟨hlt, -⟩ := List.getElem?_eq_some.mp hj
    exact ⟨j, hlt, hj⟩
  · obtain ⟨c, u, hcs⟩ := classifySpec_total db m.db_table m.do_update
      ((cols.filter fun q => q.1 ∈ m.match_fields).map Prod.fst)
      (pyZip (cols.map Prod.snd))
      (dedupByKey [] (pyZip ((cols.filter fun q =>
        q.1 ∈ m.match_fields).map Prod.snd)).enum) hin
    refine ⟨⟨cols.map Prod.fst, u.map Prod.snd, c.map Prod.snd⟩, ?_, hle, hexq, ?_⟩
    · rw [distribute_data_unfold db m item cols hc hmf, hcs]
      rfl
    · intro row hrow
      have hex2 : ∃ p ∈ c ++ u, p.2 = row := by
        rcases List.mem_append.mp hrow with h | h
        · obtain ⟨p, hpm, hpe⟩ := List.mem_map.mp h
          exact ⟨p, List.mem_append.mpr (Or.inl hpm), hpe⟩
        · obtain ⟨p, hpm, hpe⟩ := List.mem_map.mp h
          exact ⟨p, List.mem_append.mpr (Or.inr hpm), hpe⟩
      obtain ⟨p, hpm, rfl⟩ := hex2
      have hg := (classifySpec_mem db m.db_table m.do_update _ _ _ c u hcs p hpm).2
      obtain ⟨hlt, -⟩ := List.getElem?_eq_some.mp hg
      exact ⟨p.1, hlt, hg⟩

theorem transposition_truncates_silently_when_in_range_witness :
    ∃ dd, distribute_data dbEmptyFalse metaId itemOne = .ok dd ∧
      (∀ c ∈ [("id", [1])], (pyZip ([("id", [1])].map Prod.snd)).length ≤ c.2.length) ∧
      ([("id", [1])] ≠ [] → ∃ c ∈ [("id", [1])],
        (pyZip ([("id", [1])].map Prod.snd)).length = c.2.length) ∧
      (∀ row ∈ dd.to_create ++ dd.to_update,
        ∃ j, j < (pyZip ([("id", [1])].map Prod.snd)).length ∧
          (pyZip ([("id", [1])].map Prod.snd))[j]? = some row) :=
  transposition_truncates_silently_when_in_range dbEmptyFalse metaId itemOne
    [("id", [1])] rfl (by decide)

end Kaimono
